import Mathlib

/-
Verification of the FFI layer of a Zcash light-client synchronization core
(`src/rust/src/lib.rs`) against its natural-language specification.

The Rust file under verification is the C-ABI surface: each exported
`zcashlc_*` function marshals its arguments, performs the argument
validation visible in that file, delegates to a backend operation
(`zcash_client_sqlite`: chain validation, scanning, rewind, balances,
transaction construction), and maps the result to a sentinel-encoded
return value inside a panic catcher.  The backend operations themselves
are not part of the repository source, so they are modelled here from the
specification's component contracts (each such definition carries a
doc comment starting with "Modelled from the spec:"); the argument
validation, error mapping and sentinel conventions are translated
directly from `lib.rs`.

Machine integers (i32/i64 heights, amounts, row ids) are modelled as
`Int`; hashes, keys and ciphertexts are opaque `Nat`/`List Nat` data.
-/

namespace ZcashLC

/-! ## Data model (spec §3: accounts, scanned blocks, notes, cache) -/

/-- Modelled from the spec: an extended spending key is derived
deterministically from (seed, coin type, account index); the derivation
scheme itself is a non-goal, so the key is represented by its inputs. -/
structure ExtSpendingKey where
  seed : List Nat
  coinType : Nat
  account : Nat
deriving DecidableEq, Repr

/-- Modelled from the spec: the extended full viewing key derived from a
spending key (detection capability without spend authority). -/
structure ExtFullViewingKey where
  seed : List Nat
  coinType : Nat
  account : Nat
deriving DecidableEq, Repr

/-- Modelled from the spec: `spending_key(seed, coin_type, account)`
from the key-derivation collaborator, represented by its inputs. -/
def spending_key (seed : List Nat) (coinType : Nat) (account : Nat) : ExtSpendingKey :=
  { seed := seed, coinType := coinType, account := account }

/-- Modelled from the spec: `ExtendedFullViewingKey::from(extsk)`. -/
def toExtFullViewingKey (k : ExtSpendingKey) : ExtFullViewingKey :=
  { seed := k.seed, coinType := k.coinType, account := k.account }

/-- A scanned-block row of the wallet store: height, hash, prev-hash,
time and the note-commitment-tree frontier checkpoint as of this block
(spec §3 "Scanned Block", §6 scanned-block table). -/
structure ScannedBlock where
  height : Int
  hash : Nat
  prevHash : Nat
  time : Nat
  frontier : List Nat
deriving DecidableEq, Repr

/-- A received-note row: owning account, value, origin block height,
position in the commitment tree, spent flag and optional memo bytes
(spec §3 "Received Note"). -/
structure Note where
  account : Nat
  value : Int
  height : Int
  position : Nat
  spent : Bool
  memo : Option (List Nat)
deriving DecidableEq, Repr

/-- A sent-note row: originating account, value and the height of the
transaction that created it (spec §3 "Sent Note"). -/
structure SentNote where
  account : Nat
  value : Int
  height : Int
deriving DecidableEq, Repr

/-- The durable wallet store (spec §3/§6): account table (viewing keys,
index = account id), scanned-block table, received notes, sent notes,
nullifier set entries tagged with the height that produced them, and the
live commitment-tree frontier. -/
structure WalletStore where
  accounts : List ExtFullViewingKey
  blocks : List ScannedBlock
  notes : List Note
  sentNotes : List SentNote
  nullifiers : List (Nat × Int)
  frontier : List Nat
deriving DecidableEq, Repr

/-- A compact output of a cached block: commitment, ephemeral key and
ciphertext (spec §3 "Compact Block"). -/
structure CompactOutput where
  cmu : Nat
  epk : Nat
  ciphertext : List Nat
deriving DecidableEq, Repr

/-- A compact transaction: declared nullifiers (spends) and ordered
compact outputs. -/
structure CompactTx where
  spends : List Nat
  outputs : List CompactOutput
deriving DecidableEq, Repr

/-- A cached compact block, keyed by height. -/
structure CompactBlock where
  height : Int
  hash : Nat
  prevHash : Nat
  time : Nat
  txs : List CompactTx
deriving DecidableEq, Repr

/-- The decryption result of a trial decryption: note value and raw memo
bytes. -/
structure DecryptedNote where
  value : Int
  memoBytes : List Nat
deriving DecidableEq, Repr

/-- Sapling activation height: where scanning starts for a brand-new
database (doc comment of `zcashlc_scan_blocks`). -/
def saplingActivationHeight : Int := 280000

/-- Modelled from the spec: the highest scanned height recorded in the
wallet store (`SELECT MAX(height) FROM blocks`), defaulting to the block
before Sapling activation for a brand-new database. -/
def maxScannedHeight (st : WalletStore) : Int :=
  match st.blocks with
  | [] => saplingActivationHeight - 1
  | b :: rest => rest.foldl (fun m x => max m x.height) b.height

/-- Height of the last scanned-block row (the stores append rows in scan
order), with the same brand-new-database default. -/
def lastScannedHeight (st : WalletStore) : Int :=
  match st.blocks.getLast? with
  | some b => b.height
  | none => saplingActivationHeight - 1

/-- Scanned-block heights are strictly sequential: each row's height is
exactly one more than the previous row's (spec §3 invariant). -/
def heightsSequentialB : List ScannedBlock → Bool
  | [] => true
  | [_] => true
  | a :: b :: rest => (b.height == a.height + 1) && heightsSequentialB (b :: rest)

/-- Well-formedness of a wallet store: the scanned-block table satisfies
the height-sequential invariant. -/
def storeWF (st : WalletStore) : Bool :=
  heightsSequentialB st.blocks

/-! ## UTF-8 validity (spec §4.3: memo bytes persisted only if valid UTF-8) -/

/-- A UTF-8 continuation byte (10xxxxxx). -/
def isUtf8Cont (b : Nat) : Bool :=
  0x80 ≤ b && b ≤ 0xBF

/-- Modelled from the spec: UTF-8 validity of a byte sequence (the spec
only requires "valid UTF-8"); standard table-driven validation rejecting
overlong encodings, surrogates and out-of-range sequences. -/
def isValidUtf8 : List Nat → Bool
  | [] => true
  | b :: rest =>
    if b ≤ 0x7F then isValidUtf8 rest
    else if 0xC2 ≤ b && b ≤ 0xDF then
      match rest with
      | c :: r => isUtf8Cont c && isValidUtf8 r
      | [] => false
    else if b == 0xE0 then
      match rest with
      | c :: d :: r => (0xA0 ≤ c && c ≤ 0xBF) && isUtf8Cont d && isValidUtf8 r
      | _ => false
    else if (0xE1 ≤ b && b ≤ 0xEC) || b == 0xEE || b == 0xEF then
      match rest with
      | c :: d :: r => isUtf8Cont c && isUtf8Cont d && isValidUtf8 r
      | _ => false
    else if b == 0xED then
      match rest with
      | c :: d :: r => (0x80 ≤ c && c ≤ 0x9F) && isUtf8Cont d && isValidUtf8 r
      | _ => false
    else if b == 0xF0 then
      match rest with
      | c :: d :: e :: r => (0x90 ≤ c && c ≤ 0xBF) && isUtf8Cont d && isUtf8Cont e && isValidUtf8 r
      | _ => false
    else if 0xF1 ≤ b && b ≤ 0xF3 then
      match rest with
      | c :: d :: e :: r => isUtf8Cont c && isUtf8Cont d && isUtf8Cont e && isValidUtf8 r
      | _ => false
    else if b == 0xF4 then
      match rest with
      | c :: d :: e :: r => (0x80 ≤ c && c ≤ 0x8F) && isUtf8Cont d && isUtf8Cont e && isValidUtf8 r
      | _ => false
    else false

/-! ## Block Scanner (spec §4.3), modelled from the spec

The backend `scan_cached_blocks` is not part of the repository source;
it is modelled here from the spec's contract.  Trial decryption and
nullifier derivation are cryptographic collaborators and appear as
function parameters (`decrypt`, `nullifierOf`): the theorems below hold
for every choice of these functions. -/

/-- Scan error outcomes (spec §7: scan-gap errors vs. other scan
errors). -/
inductive ScanError where
  | gap (expected : Int)
  | storeError
deriving DecidableEq, Repr

/-- Modelled from the spec: process one compact output — trial-decrypt
against every tracked viewing key; on success append the commitment to
the tree and create a Received Note, persisting the memo bytes only when
they are valid UTF-8 (dropping them otherwise rather than failing). -/
def processOutput (decrypt : ExtFullViewingKey → CompactOutput → Option DecryptedNote)
    (height : Int) (st : WalletStore) (o : CompactOutput) : WalletStore :=
  match st.accounts.enum.findSome? (fun p => (decrypt p.2 o).map (fun dn => (p.1, dn))) with
  | none => st
  | some (a, dn) =>
    { st with
      frontier := st.frontier ++ [o.cmu],
      notes := st.notes ++ [{ account := a, value := dn.value, height := height,
                              position := st.frontier.length, spent := false,
                              memo := if isValidUtf8 dn.memoBytes then some dn.memoBytes
                                      else none }] }

/-- Modelled from the spec: process one compact transaction — all
outputs, then the declared nullifiers: a nullifier matching an unspent
tracked note marks that note spent and is appended to the nullifier set
tagged with this block's height. -/
def scanTx (decrypt : ExtFullViewingKey → CompactOutput → Option DecryptedNote)
    (nullifierOf : Nat → Nat → Nat) (height : Int)
    (st : WalletStore) (tx : CompactTx) : WalletStore :=
  let st1 := tx.outputs.foldl (processOutput decrypt height) st
  let matched := tx.spends.filter
    (fun nf => st1.notes.any (fun n => !n.spent && (nullifierOf n.account n.position == nf)))
  { st1 with
    notes := st1.notes.map (fun n =>
      if n.spent = false ∧ nullifierOf n.account n.position ∈ tx.spends then
        { n with spent := true }
      else n),
    nullifiers := st1.nullifiers ++ matched.map (fun nf => (nf, height)) }

/-- Modelled from the spec: scan one block — process every transaction,
then checkpoint the tree frontier and append a Scanned Block record. -/
def scanBlock (decrypt : ExtFullViewingKey → CompactOutput → Option DecryptedNote)
    (nullifierOf : Nat → Nat → Nat) (st : WalletStore) (b : CompactBlock) : WalletStore :=
  let st1 := b.txs.foldl (scanTx decrypt nullifierOf b.height) st
  { st1 with
    blocks := st1.blocks ++ [{ height := b.height, hash := b.hash, prevHash := b.prevHash,
                               time := b.time, frontier := st1.frontier }] }

/-- Modelled from the spec: scan pending blocks in ascending height
order; each block must be at exactly the expected height, otherwise stop
with a gap error — never skip ahead. -/
def scanGo (decrypt : ExtFullViewingKey → CompactOutput → Option DecryptedNote)
    (nullifierOf : Nat → Nat → Nat) :
    List CompactBlock → Int → WalletStore → Except ScanError WalletStore
  | [], _, st => .ok st
  | b :: rest, expected, st =>
    if b.height = expected then
      scanGo decrypt nullifierOf rest (expected + 1) (scanBlock decrypt nullifierOf st b)
    else .error (.gap expected)

instance compactBlockLeRel :
    DecidableRel (fun a b : CompactBlock => a.height ≤ b.height) :=
  fun a b => Int.decLe a.height b.height

/-- Cached blocks ordered by ascending height (the cache is keyed by
height). -/
def sortByHeight (l : List CompactBlock) : List CompactBlock :=
  List.insertionSort (fun a b => a.height ≤ b.height) l

/-- Modelled from the spec: `scan_cached_blocks` — consume the cached
blocks whose height exceeds the highest scanned height, strictly in
ascending order starting at highest-scanned-height + 1; the whole call
is one atomic store transaction, so a failure leaves the prior store
state untouched. -/
def scan_cached_blocks (decrypt : ExtFullViewingKey → CompactOutput → Option DecryptedNote)
    (nullifierOf : Nat → Nat → Nat)
    (cache : List CompactBlock) (st : WalletStore) : Except ScanError WalletStore :=
  let s := maxScannedHeight st
  scanGo decrypt nullifierOf
    (sortByHeight (cache.filter (fun b => decide (s < b.height)))) (s + 1) st

/-- `zcashlc_scan_blocks` from `lib.rs`: runs the scan inside the panic
catcher and maps the outcome to the i32 convention — 1 on success, the
i32 null sentinel 0 on error; on error the store keeps its prior state
(atomic transaction rollback). -/
def zcashlc_scan_blocks (decrypt : ExtFullViewingKey → CompactOutput → Option DecryptedNote)
    (nullifierOf : Nat → Nat → Nat)
    (cache : List CompactBlock) (st : WalletStore) : WalletStore × Int :=
  match scan_cached_blocks decrypt nullifierOf cache st with
  | .ok st' => (st', 1)
  | .error _ => (st, 0)

/-! ## Chain Validator (spec §4.1), modelled from the spec -/

/-- The three outcomes of chain validation (spec §6:
`NO_CONFLICT | conflict_at_height(H) | validation_error`). -/
inductive ValidateResult where
  | noConflict
  | conflictAt (h : Int)
  | validationError
deriving DecidableEq, Repr

/-- Modelled from the spec: walk the pending cached blocks in ascending
height order; each block must sit at the expected height and its
`prev_hash` must reference the hash of the block below; the first broken
link is the lowest height at which the cache's implied chain diverges
from what scanning would require.  A non-sequential height is an
infrastructure failure, not a consensus fork. -/
def validateLinked : List CompactBlock → Nat → Int → ValidateResult
  | [], _, _ => .noConflict
  | b :: rest, ph, expected =>
    if b.height = expected then
      if b.prevHash = ph then validateLinked rest b.hash (expected + 1)
      else .conflictAt b.height
    else .validationError

/-- Modelled from the spec: `validate_combined_chain` — check that every
cached block above the highest scanned height hash-links back to
continuity with the last scanned block's hash (for an empty wallet the
lowest cached block serves as the chain-of-trust anchor).  Pure:
computes over both stores without changing either. -/
def validate_combined_chain (cache : List CompactBlock) (st : WalletStore) : ValidateResult :=
  let s := maxScannedHeight st
  let pending := sortByHeight (cache.filter (fun b => decide (s < b.height)))
  match st.blocks.getLast? with
  | some sb => validateLinked pending sb.hash (s + 1)
  | none =>
    match pending with
    | [] => .noConflict
    | b :: rest => validateLinked rest b.hash (b.height + 1)

/-- The i32 encoding of validation outcomes used by
`zcashlc_validate_combined_chain` (`lib.rs`): -1 when the combined chain
is valid, the conflict height when invalid, 0 on a validation error. -/
def encodeValidateResult : ValidateResult → Int
  | .noConflict => -1
  | .conflictAt h => h
  | .validationError => 0

/-- `zcashlc_validate_combined_chain` from `lib.rs`: opening either
store can fail (unreadable/corrupt database), which surfaces as the
error sentinel 0; otherwise the validation outcome is encoded as
above. -/
def zcashlc_validate_combined_chain (cacheR : Except Unit (List CompactBlock))
    (storeR : Except Unit WalletStore) : Int :=
  match cacheR, storeR with
  | .ok cache, .ok st => encodeValidateResult (validate_combined_chain cache st)
  | _, _ => 0

/-- `zcashlc_validate_combined_chain` viewed with its store arguments as
state: the call returns both stores untouched together with the i32
result (the function only ever reads them). -/
def zcashlc_validate_combined_chain_st (cache : List CompactBlock) (st : WalletStore) :
    (List CompactBlock × WalletStore) × Int :=
  ((cache, st), encodeValidateResult (validate_combined_chain cache st))

/-! ## Rewind Manager (spec §4.2), modelled from the spec -/

/-- Modelled from the spec: `rewind_to_height` — no-op when the target
height is at or above the current maximum scanned height; otherwise
delete every Scanned Block, Received Note, Sent Note and Nullifier Set
entry associated with a height greater than the target and restore the
commitment-tree frontier to its checkpoint as of the target height. -/
def rewind_to_height (st : WalletStore) (h : Int) : WalletStore :=
  if maxScannedHeight st ≤ h then st
  else
    let keptBlocks := st.blocks.filter (fun b => decide (b.height ≤ h))
    { st with
      blocks := keptBlocks,
      notes := st.notes.filter (fun n => decide (n.height ≤ h)),
      sentNotes := st.sentNotes.filter (fun n => decide (n.height ≤ h)),
      nullifiers := st.nullifiers.filter (fun p => decide (p.2 ≤ h)),
      frontier := match keptBlocks.getLast? with
                  | some b => b.frontier
                  | none => [] }

/-- `zcashlc_rewind_to_height` from `lib.rs`: performs the rewind and
returns 1 on success. -/
def zcashlc_rewind_to_height (st : WalletStore) (h : Int) : WalletStore × Int :=
  (rewind_to_height st h, 1)

/-! ## Balance queries (spec §4.5), modelled from the spec -/

/-- The fixed confirmation-depth policy constant used by the verified
balance (spec §4.5: "Threshold is a fixed policy constant"). -/
def ANCHOR_OFFSET : Int := 10

/-- Modelled from the spec: total balance — the sum of values of all
the account's unspent Received Notes, regardless of confirmation
depth. -/
def get_balance (st : WalletStore) (account : Nat) : Int :=
  ((st.notes.filter (fun n => n.account == account && !n.spent)).map (fun n => n.value)).sum

/-- Modelled from the spec: verified balance — the sum of values of the
account's unspent Received Notes whose originating block height is at or
below the highest scanned height minus the confirmation-depth
threshold. -/
def get_verified_balance (st : WalletStore) (account : Nat) : Int :=
  ((st.notes.filter (fun n => n.account == account && !n.spent &&
      decide (n.height ≤ maxScannedHeight st - ANCHOR_OFFSET))).map (fun n => n.value)).sum

/-- `zcashlc_get_balance` from `lib.rs`: a negative account index is an
argument error, reported via the i64 sentinel -1. -/
def zcashlc_get_balance (st : WalletStore) (account : Int) : Int :=
  if account < 0 then -1 else get_balance st account.toNat

/-- `zcashlc_get_verified_balance` from `lib.rs`: same conventions as
`zcashlc_get_balance`. -/
def zcashlc_get_verified_balance (st : WalletStore) (account : Int) : Int :=
  if account < 0 then -1 else get_verified_balance st account.toNat

/-! ## Memo queries -/

/-- Modelled from the spec: `get_received_memo_as_utf8` — look up the
note row by id; an unknown id is a store error, otherwise the stored
memo (absent when the scanner dropped invalid UTF-8 bytes) is
returned. -/
def get_received_memo_as_utf8 (st : WalletStore) (idNote : Nat) :
    Except Unit (Option (List Nat)) :=
  match st.notes.get? idNote with
  | some n => .ok n.memo
  | none => .error ()

/-- `zcashlc_get_received_memo_as_utf8` from `lib.rs`: an absent memo is
replaced by the empty string (`unwrap_or_default`); an error becomes the
null pointer (`none`). -/
def zcashlc_get_received_memo_as_utf8 (st : WalletStore) (idNote : Nat) :
    Option (List Nat) :=
  match get_received_memo_as_utf8 st idNote with
  | .ok m => some (m.getD [])
  | .error _ => none

/-! ## Account initialisation (`zcashlc_init_accounts_table`) -/

/-- Failure modes of the backend accounts-table initialisation. -/
inductive InitAccountsError where
  | tableNotEmpty
  | storeError
deriving DecidableEq, Repr

/-- Modelled from the spec: backend `init_accounts_table` — fails with
`TableNotEmpty` when accounts already exist in the store, otherwise
records the given viewing keys as the account table. -/
def init_accounts_table (st : WalletStore) (extfvks : List ExtFullViewingKey) :
    Except InitAccountsError WalletStore :=
  if st.accounts ≠ [] then .error .tableNotEmpty
  else .ok { st with accounts := extfvks }

/-- `zcashlc_init_accounts_table` from `lib.rs`: a negative account
count is an argument error (null return); otherwise the spending keys
for accounts `0..accounts` are derived from the seed, the backend is
invoked, a `TableNotEmpty` failure is deliberately ignored, any other
failure is an error — and on the non-error paths the ordered derived
spending keys are returned. -/
def zcashlc_init_accounts_table (st : WalletStore) (seed : List Nat) (accounts : Int) :
    WalletStore × Option (List ExtSpendingKey) :=
  if accounts < 0 then (st, none)
  else
    let extsks := (List.range accounts.toNat).map (fun a => spending_key seed 1 a)
    let extfvks := extsks.map toExtFullViewingKey
    match init_accounts_table st extfvks with
    | .ok st' => (st', some extsks)
    | .error .tableNotEmpty => (st, some extsks)
    | .error .storeError => (st, none)

/-! ## Transaction builder FFI pipeline (`zcashlc_create_to_address`)

The validation stages below are translated from `lib.rs` in source
order: account sign check, amount range check (`Amount::from_i64`),
negativity check, spending-key decoding, recipient-address decoding, and
only then the backend `create_to_address` (note selection, proof
generation and recording), which appears as an abstract state
transformer since it is not part of the repository source.  Key and
address string decoding are external collaborators (spec §1 excludes
encoding), so their results appear as inputs. -/

/-- `MAX_MONEY`: the representable amount bound (21 000 000 ZEC in
zatoshis). -/
def maxMoney : Int := 2100000000000000

/-- `Amount::from_i64` as used by `lib.rs`: accepts amounts in
`[-MAX_MONEY, MAX_MONEY]`, rejects anything out of range. -/
def amountFromI64 (v : Int) : Except Unit Int :=
  if -maxMoney ≤ v ∧ v ≤ maxMoney then .ok v else .error ()

/-- The tagged failure modes of the `zcashlc_create_to_address`
pipeline, in the order the stages appear in `lib.rs`. -/
inductive CreateErr where
  | accountNegative
  | amountOutOfRange
  | amountNegative
  | keyInvalid
  | keyWrongNetwork
  | addrWrongNetwork
  | backendFailed
deriving DecidableEq, Repr

/-- The validation pipeline of `zcashlc_create_to_address` (`lib.rs`),
stage by stage; `keyD` is the result of `decode_extended_spending_key`
(`Ok None` = wrong network), `addrD` the result of
`RecipientAddress::from_str`, and `backend` the backend
`create_to_address` returning the new store and transaction row id. -/
def create_pipeline (st : WalletStore) (account : Int)
    (keyD : Except Unit (Option ExtSpendingKey)) (addrD : Option Nat) (value : Int)
    (backend : WalletStore → Except Unit (WalletStore × Int)) :
    Except CreateErr (WalletStore × Int) :=
  if account < 0 then .error .accountNegative
  else
    match amountFromI64 value with
    | .error _ => .error .amountOutOfRange
    | .ok v =>
      if v < 0 then .error .amountNegative
      else
        match keyD with
        | .error _ => .error .keyInvalid
        | .ok none => .error .keyWrongNetwork
        | .ok (some _) =>
          match addrD with
          | none => .error .addrWrongNetwork
          | some _ =>
            match backend st with
            | .error _ => .error .backendFailed
            | .ok r => .ok r

/-- `zcashlc_create_to_address` from `lib.rs`: any pipeline failure is
reported through the i64 sentinel -1 with the store left in its prior
state; success yields the backend's store and transaction row id. -/
def zcashlc_create_to_address (st : WalletStore) (account : Int)
    (keyD : Except Unit (Option ExtSpendingKey)) (addrD : Option Nat) (value : Int)
    (backend : WalletStore → Except Unit (WalletStore × Int)) : WalletStore × Int :=
  match create_pipeline st account keyD addrD value backend with
  | .ok r => r
  | .error _ => (st, -1)

/-! ## FFI boundary conventions (`catch_panic` + sentinel values)

`unwrap_exc_or` and `unwrap_exc_or_null` are translated from `lib.rs`;
the per-function descriptor table transcribes, for every exported
`zcashlc_*` function of `lib.rs`, its return kind, whether its body is
wrapped in `catch_panic`, and the value it returns on a caught panic or
error. -/

/-- The null/sentinel value of an FFI return type (`ffi_helpers`'
`Nullable`): 0 for machine integers, the null pointer for pointers. -/
class Nullable (α : Type) where
  nullVal : α

instance : Nullable Int := ⟨0⟩

instance {α : Type} : Nullable (Option α) := ⟨none⟩

/-- `unwrap_exc_or` from `lib.rs`: the caught-panic result defaults to
an explicit value. -/
def unwrap_exc_or {T : Type} (exc : Except Unit T) (d : T) : T :=
  match exc with
  | .ok value => value
  | .error _ => d

/-- `unwrap_exc_or_null` from `lib.rs`: the caught-panic result defaults
to the return type's null value. -/
def unwrap_exc_or_null {T : Type} [Nullable T] (exc : Except Unit T) : T :=
  match exc with
  | .ok value => value
  | .error _ => Nullable.nullVal

/-- FFI return kinds of the exported functions. -/
inductive RetKind where
  | ptr
  | int32
  | int64
  | unitRet
deriving DecidableEq, Repr

/-- The value an exported function returns when its body's result is an
error or a caught panic. -/
inductive ErrVal where
  | nullPtr
  | intVal (v : Int)
deriving DecidableEq, Repr

/-- Descriptor of one exported `zcashlc_*` function: name, return kind,
whether the body is wrapped in `catch_panic`, and the sentinel produced
on error (`none` when the function has no error path of its own). -/
structure FfiFn where
  name : String
  ret : RetKind
  catchesPanic : Bool
  onError : Option ErrVal
deriving DecidableEq, Repr

/-- The sentinel convention claimed for wrapped functions: null pointer
for pointer returns, 0 for i32 returns, -1 for i64 returns. -/
def defaultSentinel : RetKind → Option ErrVal
  | .ptr => some .nullPtr
  | .int32 => some (.intVal 0)
  | .int64 => some (.intVal (-1))
  | .unitRet => none

/-- Every exported `zcashlc_*` function of `lib.rs`, transcribed in
source order. -/
def ffiFunctions : List FfiFn :=
  [ { name := "zcashlc_last_error_length", ret := .int32, catchesPanic := false,
      onError := none },
    { name := "zcashlc_error_message_utf8", ret := .int32, catchesPanic := false,
      onError := none },
    { name := "zcashlc_clear_last_error", ret := .unitRet, catchesPanic := false,
      onError := none },
    { name := "zcashlc_init_data_database", ret := .int32, catchesPanic := true,
      onError := some (.intVal 0) },
    { name := "zcashlc_init_accounts_table", ret := .ptr, catchesPanic := true,
      onError := some .nullPtr },
    { name := "zcashlc_init_blocks_table", ret := .int32, catchesPanic := true,
      onError := some (.intVal 0) },
    { name := "zcashlc_get_address", ret := .ptr, catchesPanic := true,
      onError := some .nullPtr },
    { name := "zcashlc_get_balance", ret := .int64, catchesPanic := true,
      onError := some (.intVal (-1)) },
    { name := "zcashlc_get_verified_balance", ret := .int64, catchesPanic := true,
      onError := some (.intVal (-1)) },
    { name := "zcashlc_get_received_memo_as_utf8", ret := .ptr, catchesPanic := true,
      onError := some .nullPtr },
    { name := "zcashlc_get_sent_memo_as_utf8", ret := .ptr, catchesPanic := true,
      onError := some .nullPtr },
    { name := "zcashlc_validate_combined_chain", ret := .int32, catchesPanic := true,
      onError := some (.intVal 0) },
    { name := "zcashlc_rewind_to_height", ret := .int32, catchesPanic := true,
      onError := some (.intVal 0) },
    { name := "zcashlc_scan_blocks", ret := .int32, catchesPanic := true,
      onError := some (.intVal 0) },
    { name := "zcashlc_create_to_address", ret := .int64, catchesPanic := true,
      onError := some (.intVal (-1)) },
    { name := "zcashlc_string_free", ret := .unitRet, catchesPanic := false,
      onError := none },
    { name := "zcashlc_vec_string_free", ret := .unitRet, catchesPanic := false,
      onError := none } ]

/-- The exported functions whose bodies are not wrapped in
`catch_panic`: the last-error bookkeeping helpers and the two memory
release functions. -/
def ffiUnwrapped : List String :=
  [ "zcashlc_last_error_length", "zcashlc_error_message_utf8", "zcashlc_clear_last_error",
    "zcashlc_string_free", "zcashlc_vec_string_free" ]

/-! ## Helper lemmas about height-sequential block lists -/

theorem seqB_tail {a : ScannedBlock} {t : List ScannedBlock}
    (h : heightsSequentialB (a :: t) = true) : heightsSequentialB t = true := by
  cases t with
  | nil => rfl
  | cons c t' =>
    simp only [heightsSequentialB, Bool.and_eq_true] at h
    exact h.2

theorem seqB_head_lt {t : List ScannedBlock} :
    ∀ {a : ScannedBlock}, heightsSequentialB (a :: t) = true →
      ∀ b ∈ t, a.height < b.height := by
  induction t with
  | nil => intro a _ b hb; cases hb
  | cons c t' ih =>
    intro a h b hb
    simp only [heightsSequentialB, Bool.and_eq_true, beq_iff_eq] at h
    rcases List.mem_cons.mp hb with rfl | hb'
    · omega
    · have hc := ih (by simpa [heightsSequentialB, Bool.and_eq_true] using h.2) b hb'
      omega

theorem foldlMax_eq_getLast :
    ∀ (l : List ScannedBlock) (acc : Int), (∀ b ∈ l, acc ≤ b.height) →
      heightsSequentialB l = true →
      l.foldl (fun m x => max m x.height) acc = (l.getLast?.elim acc (fun b => b.height)) := by
  intro l
  induction l with
  | nil => intro acc _ _; rfl
  | cons a t ih =>
    intro acc hle hseq
    have hacc : max acc a.height = a.height :=
      max_eq_right (hle a (List.mem_cons_self a t))
    have hle' : ∀ b ∈ t, a.height ≤ b.height :=
      fun b hb => le_of_lt (seqB_head_lt hseq b hb)
    have := ih a.height hle' (seqB_tail hseq)
    cases t with
    | nil => simp [List.foldl, hacc]
    | cons c t' =>
      simp only [List.foldl_cons, hacc, List.getLast?_cons_cons]
      simpa using this

/-- Under the height-sequential invariant, the highest scanned height is
the height of the last scanned-block row. -/
theorem maxScanned_eq_last (st : WalletStore) (h : storeWF st = true) :
    maxScannedHeight st = lastScannedHeight st := by
  unfold storeWF at h
  unfold maxScannedHeight lastScannedHeight
  cases hb : st.blocks with
  | nil => rfl
  | cons a t =>
    rw [hb] at h
    have hle : ∀ b ∈ t, a.height ≤ b.height :=
      fun b hbt => le_of_lt (seqB_head_lt h b hbt)
    dsimp only
    rw [foldlMax_eq_getLast t a.height hle (seqB_tail h)]
    cases t with
    | nil => rfl
    | cons c t' =>
      rcases hgl : (c :: t').getLast? with _ | x
      · simp at hgl
      · simp [List.getLast?_cons_cons, hgl]

theorem seqB_append {b : ScannedBlock} :
    ∀ {l : List ScannedBlock}, heightsSequentialB l = true →
      (∀ x, l.getLast? = some x → b.height = x.height + 1) →
      heightsSequentialB (l ++ [b]) = true := by
  intro l
  induction l with
  | nil => intro _ _; rfl
  | cons a t ih =>
    intro hseq hlast
    cases t with
    | nil =>
      have : b.height = a.height + 1 := hlast a rfl
      simp [heightsSequentialB, this]
    | cons c t' =>
      simp only [heightsSequentialB, Bool.and_eq_true, beq_iff_eq] at hseq
      have hlast' : ∀ x, (c :: t').getLast? = some x → b.height = x.height + 1 := by
        intro x hx
        exact hlast x (by rw [List.getLast?_cons_cons]; exact hx)
      have htail := ih hseq.2 hlast'
      simp only [List.cons_append, heightsSequentialB, Bool.and_eq_true, beq_iff_eq]
      exact ⟨hseq.1, by simpa using htail⟩

/-! ## Scan step lemmas -/

theorem processOutput_blocks (decrypt : ExtFullViewingKey → CompactOutput → Option DecryptedNote)
    (height : Int) (st : WalletStore) (o : CompactOutput) :
    (processOutput decrypt height st o).blocks = st.blocks := by
  unfold processOutput
  split <;> rfl

theorem foldl_processOutput_blocks
    (decrypt : ExtFullViewingKey → CompactOutput → Option DecryptedNote) (height : Int) :
    ∀ (outs : List CompactOutput) (st : WalletStore),
      (outs.foldl (processOutput decrypt height) st).blocks = st.blocks := by
  intro outs
  induction outs with
  | nil => intro st; rfl
  | cons o rest ih =>
    intro st
    rw [List.foldl_cons, ih, processOutput_blocks]

theorem scanTx_blocks (decrypt : ExtFullViewingKey → CompactOutput → Option DecryptedNote)
    (nullifierOf : Nat → Nat → Nat) (height : Int) (st : WalletStore) (tx : CompactTx) :
    (scanTx decrypt nullifierOf height st tx).blocks = st.blocks := by
  unfold scanTx
  simp [foldl_processOutput_blocks]

theorem foldl_scanTx_blocks (decrypt : ExtFullViewingKey → CompactOutput → Option DecryptedNote)
    (nullifierOf : Nat → Nat → Nat) (height : Int) :
    ∀ (txs : List CompactTx) (st : WalletStore),
      (txs.foldl (scanTx decrypt nullifierOf height) st).blocks = st.blocks := by
  intro txs
  induction txs with
  | nil => intro st; rfl
  | cons tx rest ih =>
    intro st
    rw [List.foldl_cons, ih, scanTx_blocks]

theorem scanBlock_blocks (decrypt : ExtFullViewingKey → CompactOutput → Option DecryptedNote)
    (nullifierOf : Nat → Nat → Nat) (st : WalletStore) (b : CompactBlock) :
    (scanBlock decrypt nullifierOf st b).blocks =
      st.blocks ++ [{ height := b.height, hash := b.hash, prevHash := b.prevHash,
                      time := b.time,
                      frontier := (b.txs.foldl (scanTx decrypt nullifierOf b.height) st).frontier }] := by
  unfold scanBlock
  simp [foldl_scanTx_blocks]

/-- A successful scan loop preserves the height-sequential invariant:
every block it appends is at exactly the expected next height. -/
theorem scanGo_ok_seq (decrypt : ExtFullViewingKey → CompactOutput → Option DecryptedNote)
    (nullifierOf : Nat → Nat → Nat) :
    ∀ (pending : List CompactBlock) (expected : Int) (st st' : WalletStore),
      heightsSequentialB st.blocks = true →
      (∀ x, st.blocks.getLast? = some x → expected = x.height + 1) →
      scanGo decrypt nullifierOf pending expected st = .ok st' →
      heightsSequentialB st'.blocks = true := by
  intro pending
  induction pending with
  | nil =>
    intro expected st st' hseq _ hok
    cases hok
    exact hseq
  | cons b rest ih =>
    intro expected st st' hseq hlast hok
    unfold scanGo at hok
    by_cases hh : b.height = expected
    · rw [if_pos hh] at hok
      set st2 := scanBlock decrypt nullifierOf st b with hst2
      have hblocks := scanBlock_blocks decrypt nullifierOf st b
      have hseq2 : heightsSequentialB st2.blocks = true := by
        rw [hst2, hblocks]
        exact seqB_append hseq (fun x hx => by
          have := hlast x hx
          simp only []
          omega)
      have hlast2 : ∀ x, st2.blocks.getLast? = some x → expected + 1 = x.height + 1 := by
        intro x hx
        rw [hst2, hblocks, List.getLast?_concat] at hx
        cases hx
        simp only []
        omega
      exact ih (expected + 1) st2 st' hseq2 hlast2 hok
    · rw [if_neg hh] at hok
      cases hok

/-- In a height-sequential block list, the last block surviving a
truncation at height `h` is exactly the block recorded at height `h`. -/
theorem filter_getLast_of_seq (h : Int) :
    ∀ (l : List ScannedBlock), heightsSequentialB l = true →
      ∀ cb ∈ l, cb.height = h →
        (l.filter (fun b => decide (b.height ≤ h))).getLast? = some cb := by
  intro l
  induction l with
  | nil => intro _ cb hcb; cases hcb
  | cons a t ih =>
    intro hseq cb hcb hch
    rcases List.mem_cons.mp hcb with rfl | hmem
    · have hkeep : (decide (cb.height ≤ h)) = true := by
        rw [decide_eq_true_iff]; omega
      have hdrop : t.filter (fun b => decide (b.height ≤ h)) = [] := by
        apply List.filter_eq_nil_iff.mpr
        intro x hx
        have := seqB_head_lt hseq x hx
        simp only [decide_eq_true_iff]
        omega
      simp [List.filter_cons, hkeep, hdrop]
    · have hlt : a.height < cb.height := seqB_head_lt hseq cb hmem
      have hkeep : (decide (a.height ≤ h)) = true := by
        rw [decide_eq_true_iff]; omega
      have htail := ih (seqB_tail hseq) cb hmem hch
      rw [List.filter_cons, if_pos hkeep]
      rcases hft : t.filter (fun b => decide (b.height ≤ h)) with _ | ⟨c, t'⟩
      · rw [hft] at htail; cases htail
      · rw [hft] at htail
        rw [hft, List.getLast?_cons_cons, htail]

/-! ## Claim C1: height-sequential scanning and gap errors -/

/-- Claim C1: for every cache and wallet store (and every trial
decryption and nullifier derivation), scanning processes cached blocks
in ascending order starting at highest-scanned-height + 1: if some block
above the scanned height is cached but the next required height is
absent, the scan returns a gap error for that height and
`zcashlc_scan_blocks` leaves the committed wallet state unchanged
(returning the error sentinel 0); and whenever a scan succeeds, the
recorded scanned-block heights remain strictly sequential — no block is
recorded whose height is not exactly one more than the previous. -/
theorem claim1_scan_gap_error_and_sequential
    (decrypt : ExtFullViewingKey → CompactOutput → Option DecryptedNote)
    (nullifierOf : Nat → Nat → Nat)
    (cache : List CompactBlock) (st : WalletStore)
    (hwf : storeWF st = true) :
    ((∃ b ∈ cache, maxScannedHeight st < b.height) →
     (∀ b ∈ cache, b.height ≠ maxScannedHeight st + 1) →
     scan_cached_blocks decrypt nullifierOf cache st =
       .error (ScanError.gap (maxScannedHeight st + 1)) ∧
     zcashlc_scan_blocks decrypt nullifierOf cache st = (st, 0)) ∧
    (∀ st', scan_cached_blocks decrypt nullifierOf cache st = .ok st' →
      heightsSequentialB st'.blocks = true) := by
  constructor
  · rintro ⟨b, hb, hgt⟩ hne
    have hbf : b ∈ cache.filter (fun x => decide (maxScannedHeight st < x.height)) :=
      List.mem_filter.mpr ⟨hb, by rw [decide_eq_true_iff]; exact hgt⟩
    have hperm := List.perm_insertionSort (fun a b : CompactBlock => a.height ≤ b.height)
      (cache.filter (fun x => decide (maxScannedHeight st < x.height)))
    have hbp : b ∈ sortByHeight
        (cache.filter (fun x => decide (maxScannedHeight st < x.height))) :=
      hperm.mem_iff.mpr hbf
    rcases hp : sortByHeight
        (cache.filter (fun x => decide (maxScannedHeight st < x.height))) with _ | ⟨p, rest⟩
    · rw [hp] at hbp; cases hbp
    · have hpmem : p ∈ sortByHeight
          (cache.filter (fun x => decide (maxScannedHeight st < x.height))) := by
        rw [hp]; exact List.mem_cons_self p rest
      have hpc : p ∈ cache := (List.mem_filter.mp (hperm.mem_iff.mp hpmem)).1
      have hpneq : p.height ≠ maxScannedHeight st + 1 := hne p hpc
      have hscan : scan_cached_blocks decrypt nullifierOf cache st =
          .error (ScanError.gap (maxScannedHeight st + 1)) := by
        show scanGo decrypt nullifierOf
            (sortByHeight (List.filter (fun x => decide (maxScannedHeight st < x.height)) cache))
            (maxScannedHeight st + 1) st = _
        rw [hp]
        unfold scanGo
        rw [if_neg hpneq]
      refine ⟨hscan, ?_⟩
      unfold zcashlc_scan_blocks
      rw [hscan]
  · intro st' hok
    unfold scan_cached_blocks at hok
    refine scanGo_ok_seq decrypt nullifierOf _ _ st st' hwf ?_ hok
    intro x hx
    have hml := maxScanned_eq_last st hwf
    unfold lastScannedHeight at hml
    simp only [hx] at hml
    omega

/-- Concrete well-formed wallet store for the claim C1 witness: one
scanned block at the Sapling activation height. -/
def st1w : WalletStore :=
  { accounts := [], blocks := [{ height := 280000, hash := 5, prevHash := 4, time := 0,
                                 frontier := [] }],
    notes := [], sentNotes := [], nullifiers := [], frontier := [] }

/-- Concrete cache for the claim C1 witness: one block two heights above
the scanned tip, so the next required height 280001 is absent. -/
def cache1w : List CompactBlock :=
  [{ height := 280002, hash := 7, prevHash := 6, time := 0, txs := [] }]

/-- Trivial trial-decryption function for witnesses. -/
def decrypt0 : ExtFullViewingKey → CompactOutput → Option DecryptedNote :=
  fun _ _ => none

/-- Trivial nullifier derivation for witnesses. -/
def nullifierOf0 : Nat → Nat → Nat :=
  fun _ _ => 0

theorem claim1_witness :
    scan_cached_blocks decrypt0 nullifierOf0 cache1w st1w =
      .error (ScanError.gap (280000 + 1)) ∧
    zcashlc_scan_blocks decrypt0 nullifierOf0 cache1w st1w = (st1w, 0) := by
  have h := (claim1_scan_gap_error_and_sequential decrypt0 nullifierOf0 cache1w st1w
      (by decide)).1 (by decide) (by decide)
  simpa using h

/-! ## Claim C2: the three chain-validation outcomes -/

/-- Claim C2: `zcashlc_validate_combined_chain` distinguishes three
outcomes — -1 (`NO_CONFLICT`), the conflict height (a positive value,
hence distinct from both sentinels), and 0 (`validation_error`, produced
whenever either store is unreadable).  In particular, for a cache of
three blocks above scanned height `H` whose `prev_hash` is tampered at
height `H+3`, validation reports a conflict exactly at `H+3`, not a
generic error. -/
theorem claim2_validate_chain_outcomes
    (st : WalletStore) (sb : ScannedBlock) (H : Int) (B1 B2 B3 : CompactBlock)
    (hwf : storeWF st = true) (hlast : st.blocks.getLast? = some sb) (hH : sb.height = H)
    (hpos : 0 ≤ H)
    (h1 : B1.height = H + 1) (h2 : B2.height = H + 2) (h3 : B3.height = H + 3)
    (hp1 : B1.prevHash = sb.hash) (hp2 : B2.prevHash = B1.hash)
    (hp3 : B3.prevHash ≠ B2.hash) :
    validate_combined_chain [B1, B2, B3] st = .conflictAt (H + 3) ∧
    zcashlc_validate_combined_chain (.ok [B1, B2, B3]) (.ok st) = H + 3 ∧
    encodeValidateResult .noConflict = -1 ∧
    encodeValidateResult .validationError = 0 ∧
    encodeValidateResult (.conflictAt (H + 3)) = H + 3 ∧
    H + 3 ≠ -1 ∧ H + 3 ≠ 0 ∧
    (∀ c, zcashlc_validate_combined_chain (.error ()) c = 0) ∧
    (∀ c, zcashlc_validate_combined_chain c (.error ()) = 0) := by
  have hmax : maxScannedHeight st = H := by
    have hml := maxScanned_eq_last st hwf
    unfold lastScannedHeight at hml
    simp only [hlast] at hml
    omega
  have hfilter : List.filter (fun x => decide (H < x.height)) [B1, B2, B3] = [B1, B2, B3] := by
    have e1 : (decide (H < B1.height)) = true := by rw [decide_eq_true_iff]; omega
    have e2 : (decide (H < B2.height)) = true := by rw [decide_eq_true_iff]; omega
    have e3 : (decide (H < B3.height)) = true := by rw [decide_eq_true_iff]; omega
    simp [List.filter, e1, e2, e3]
  have hsorted : List.Sorted (fun a b : CompactBlock => a.height ≤ b.height) [B1, B2, B3] := by
    constructor
    · intro b hb
      rcases List.mem_cons.mp hb with rfl | hb'
      · show B1.height ≤ b.height
        omega
      · rcases List.mem_cons.mp hb' with rfl | hb''
        · show B1.height ≤ b.height
          omega
        · cases hb''
    · constructor
      · intro b hb
        rcases List.mem_cons.mp hb with rfl | hb'
        · show B2.height ≤ b.height
          omega
        · cases hb'
      · exact List.sorted_singleton _
  have hsort : sortByHeight [B1, B2, B3] = [B1, B2, B3] := by
    unfold sortByHeight
    exact List.Sorted.insertionSort_eq hsorted
  have hmain : validate_combined_chain [B1, B2, B3] st = .conflictAt (H + 3) := by
    unfold validate_combined_chain
    simp only [hlast, hmax, hfilter, hsort]
    simp only [validateLinked]
    rw [if_pos (show B1.height = H + 1 by omega), if_pos hp1,
        if_pos (show B2.height = H + 1 + 1 by omega), if_pos hp2,
        if_pos (show B3.height = H + 1 + 1 + 1 by omega), if_neg hp3, h3]
  refine ⟨hmain, ?_, rfl, rfl, rfl, by omega, by omega, ?_, ?_⟩
  · show encodeValidateResult (validate_combined_chain [B1, B2, B3] st) = H + 3
    rw [hmain]
    rfl
  · intro c
    cases c <;> rfl
  · intro c
    cases c <;> rfl

/-- Concrete wallet store for the claim C2 witness. -/
def st2w : WalletStore :=
  { accounts := [], blocks := [{ height := 280000, hash := 5, prevHash := 4, time := 0,
                                 frontier := [] }],
    notes := [], sentNotes := [], nullifiers := [], frontier := [] }

/-- Cache block H+1 for the claim C2 witness: links to the scanned
tip. -/
def blk2a : CompactBlock := { height := 280001, hash := 11, prevHash := 5, time := 0, txs := [] }

/-- Cache block H+2 for the claim C2 witness: links to H+1. -/
def blk2b : CompactBlock := { height := 280002, hash := 12, prevHash := 11, time := 0, txs := [] }

/-- Cache block H+3 for the claim C2 witness: its `prev_hash` is
tampered (999 instead of 12). -/
def blk2c : CompactBlock := { height := 280003, hash := 13, prevHash := 999, time := 0, txs := [] }

theorem claim2_witness :
    validate_combined_chain [blk2a, blk2b, blk2c] st2w = .conflictAt 280003 ∧
    zcashlc_validate_combined_chain (.ok [blk2a, blk2b, blk2c]) (.ok st2w) = 280003 := by
  have h := claim2_validate_chain_outcomes st2w
    { height := 280000, hash := 5, prevHash := 4, time := 0, frontier := [] }
    280000 blk2a blk2b blk2c (by decide) (by decide) (by decide) (by decide)
    (by decide) (by decide) (by decide) (by decide) (by decide) (by decide)
  exact ⟨by simpa using h.1, by simpa using h.2.1⟩

/-! ## Claim C9: chain validation never mutates either store -/

/-- Claim C9: for every cache and wallet store, and hence for every
outcome, `zcashlc_validate_combined_chain` returns both stores exactly
as given: it only reads them. -/
theorem claim9_validate_readonly (cache : List CompactBlock) (st : WalletStore) :
    (zcashlc_validate_combined_chain_st cache st).1 = (cache, st) := rfl

/-! ## Claim C4: the rewind contract -/

/-- Claim C4: rewinding to a target height at or above the current
maximum scanned height leaves the store untouched and reports success;
otherwise exactly the Scanned Block, Received Note, Sent Note and
Nullifier Set entries at heights above the target are deleted (all
others retained), the commitment-tree frontier is restored to the
checkpoint recorded by the scanned block at the target height, and the
call reports success. -/
theorem claim4_rewind_contract (st : WalletStore) (h : Int) (hwf : storeWF st = true) :
    (maxScannedHeight st ≤ h → zcashlc_rewind_to_height st h = (st, 1)) ∧
    (h < maxScannedHeight st →
      ((∀ b, b ∈ (rewind_to_height st h).blocks ↔ b ∈ st.blocks ∧ b.height ≤ h) ∧
       (∀ n, n ∈ (rewind_to_height st h).notes ↔ n ∈ st.notes ∧ n.height ≤ h) ∧
       (∀ sn, sn ∈ (rewind_to_height st h).sentNotes ↔ sn ∈ st.sentNotes ∧ sn.height ≤ h) ∧
       (∀ p, p ∈ (rewind_to_height st h).nullifiers ↔ p ∈ st.nullifiers ∧ p.2 ≤ h) ∧
       (∀ cb ∈ st.blocks, cb.height = h → (rewind_to_height st h).frontier = cb.frontier) ∧
       (zcashlc_rewind_to_height st h).2 = 1)) := by
  constructor
  · intro hle
    unfold zcashlc_rewind_to_height rewind_to_height
    rw [if_pos hle]
  · intro hlt
    have hneg : ¬(maxScannedHeight st ≤ h) := by omega
    refine ⟨?_, ?_, ?_, ?_, ?_, rfl⟩
    · intro b
      simp [rewind_to_height, if_neg hneg, List.mem_filter]
    · intro n
      simp [rewind_to_height, if_neg hneg, List.mem_filter]
    · intro sn
      simp [rewind_to_height, if_neg hneg, List.mem_filter]
    · intro p
      simp [rewind_to_height, if_neg hneg, List.mem_filter]
    · intro cb hcb hch
      have hseq : heightsSequentialB st.blocks = true := hwf
      have hgl := filter_getLast_of_seq h st.blocks hseq cb hcb hch
      simp only [rewind_to_height, if_neg hneg]
      rw [hgl]

/-- Concrete wallet store for the claim C4 witness: two sequential
scanned blocks with notes and nullifier entries at both heights. -/
def st4w : WalletStore :=
  { accounts := [],
    blocks := [{ height := 280000, hash := 5, prevHash := 4, time := 0, frontier := [1] },
               { height := 280001, hash := 6, prevHash := 5, time := 0, frontier := [1, 2] }],
    notes := [{ account := 0, value := 7, height := 280001, position := 1, spent := false,
                memo := none }],
    sentNotes := [],
    nullifiers := [(9, 280001)],
    frontier := [1, 2] }

theorem claim4_witness : zcashlc_rewind_to_height st4w 280005 = (st4w, 1) :=
  (claim4_rewind_contract st4w 280005 (by decide)).1 (by decide)

/-! ## Claim C5: total and verified balances -/

/-- Store for the claim C5 counterexample: highest scanned height 100,
one unspent note of value 7 received at height 95. -/
def st5cex : WalletStore :=
  { accounts := [], blocks := [{ height := 100, hash := 5, prevHash := 4, time := 0,
                                 frontier := [] }],
    notes := [{ account := 0, value := 7, height := 95, position := 0, spent := false,
                memo := none }],
    sentNotes := [], nullifiers := [], frontier := [] }

/-- Claim C5 counterexample: with confirmation depth 10 and highest
scanned height 100, a note received at height 95 is NOT counted toward
the verified balance (the cutoff is height 90), contradicting the
claim's example; the note does count toward the total balance. -/
theorem claim5_counterexample :
    zcashlc_get_balance st5cex 0 = 7 ∧
    zcashlc_get_verified_balance st5cex 0 = 0 ∧
    zcashlc_get_verified_balance st5cex 0 ≠ 7 := by
  decide

/-- Append one received note to the wallet store (what the scanner does
upon a successful trial decryption). -/
def addNote (st : WalletStore) (n : Note) : WalletStore :=
  { st with notes := st.notes ++ [n] }

/-- Store for the claim C5 amended example: highest scanned height 100
and unspent notes of values 3, 5, 6 at heights 90, 95, 98. -/
def st5amd : WalletStore :=
  { accounts := [], blocks := [{ height := 100, hash := 5, prevHash := 4, time := 0,
                                 frontier := [] }],
    notes := [{ account := 0, value := 3, height := 90, position := 0, spent := false,
                memo := none },
              { account := 0, value := 5, height := 95, position := 1, spent := false,
                memo := none },
              { account := 0, value := 6, height := 98, position := 2, spent := false,
                memo := none }],
    sentNotes := [], nullifiers := [], frontier := [] }

/-- Claim C5 (amended): the total balance sums the values of all the
account's unspent notes regardless of depth (adding an unspent note
always adds its value), while the verified balance adds an unspent
note's value exactly when its height is at or below the highest scanned
height minus the confirmation depth 10 — so with scanned height 100, a
note at height 90 is counted and notes at heights 95 and 98 are not. -/
theorem claim5_amended_balance_sums (st : WalletStore) (a : Nat) (n : Note)
    (hacc : n.account = a) (hunspent : n.spent = false) :
    (get_balance (addNote st n) a = get_balance st a + n.value) ∧
    (n.height ≤ maxScannedHeight st - ANCHOR_OFFSET →
      get_verified_balance (addNote st n) a = get_verified_balance st a + n.value) ∧
    (maxScannedHeight st - ANCHOR_OFFSET < n.height →
      get_verified_balance (addNote st n) a = get_verified_balance st a) ∧
    get_balance st5amd 0 = 14 ∧
    get_verified_balance st5amd 0 = 3 := by
  have hms : maxScannedHeight (addNote st n) = maxScannedHeight st := rfl
  refine ⟨?_, ?_, ?_, by decide, by decide⟩
  · unfold get_balance addNote
    simp [List.filter_append, hacc, hunspent]
  · intro hle
    have hd : decide (n.height ≤ maxScannedHeight st - ANCHOR_OFFSET) = true :=
      decide_eq_true hle
    unfold get_verified_balance
    simp only [hms]
    unfold addNote
    simp [List.filter_append, hacc, hunspent, hd]
  · intro hgt
    have hd : decide (n.height ≤ maxScannedHeight st - ANCHOR_OFFSET) = false := by
      rw [decide_eq_false_iff_not]
      omega
    unfold get_verified_balance
    simp only [hms]
    unfold addNote
    simp [List.filter_append, hacc, hunspent, hd]

/-- Note added in the claim C5 witness. -/
def n5w : Note :=
  { account := 0, value := 4, height := 80, position := 3, spent := false, memo := none }

theorem claim5_witness :
    get_balance (addNote st5amd n5w) 0 = get_balance st5amd 0 + n5w.value :=
  (claim5_amended_balance_sums st5amd 0 n5w (by decide) (by decide)).1

/-! ## Claims C3 and C6: transaction-builder argument validation -/

/-- Spending key used by the transaction-builder examples. -/
def key3 : ExtSpendingKey := { seed := [0], coinType := 1, account := 0 }

/-- Empty wallet store used by the transaction-builder examples. -/
def st3 : WalletStore :=
  { accounts := [], blocks := [], notes := [], sentNotes := [], nullifiers := [],
    frontier := [] }

/-- Sent-note record produced by the example backend. -/
def sent3 : SentNote := { account := 0, value := 0, height := 280001 }

/-- Example backend `create_to_address`: records a Sent Note and returns
transaction row id 7 (stands for a successful note selection and
recording). -/
def backend3 : WalletStore → Except Unit (WalletStore × Int) :=
  fun s => .ok ({ s with sentNotes := s.sentNotes ++ [sent3] }, 7)

/-- Claim C3 counterexample: a zero transfer amount is NOT rejected by
the argument validation of `zcashlc_create_to_address`
(`Amount::from_i64` accepts 0 and only strictly negative values are
rejected): with amount 0 the backend note selection runs, a Sent Note is
recorded and the call returns the new transaction id — contradicting
"non-positive (zero or negative) ... rejected ... before any store
mutation; no Sent Note or transaction record is created". -/
theorem claim3_counterexample :
    zcashlc_create_to_address st3 0 (.ok (some key3)) (some 0) 0 backend3 =
      ({ st3 with sentNotes := [sent3] }, 7) ∧
    ({ st3 with sentNotes := [sent3] } : WalletStore).sentNotes ≠ [] ∧
    zcashlc_create_to_address st3 0 (.ok (some key3)) (some 0) 0 backend3 ≠ (st3, -1) := by
  decide

/-- Claim C3 (amended): a transfer amount that is negative or out of the
representable amount range is rejected with a tagged argument error
before note selection occurs and before any store mutation — the backend
is never invoked, the store is returned unchanged with the error
sentinel, and no Sent Note or transaction record is created (a zero
amount, however, passes the amount validation). -/
theorem claim3_amount_validation (st : WalletStore) (account : Int)
    (keyD : Except Unit (Option ExtSpendingKey)) (addrD : Option Nat) (value : Int)
    (backend : WalletStore → Except Unit (WalletStore × Int))
    (ha : 0 ≤ account) (hbad : value < 0 ∨ maxMoney < value) :
    (create_pipeline st account keyD addrD value backend = .error .amountOutOfRange ∨
     create_pipeline st account keyD addrD value backend = .error .amountNegative) ∧
    zcashlc_create_to_address st account keyD addrD value backend = (st, -1) := by
  have hpipe : create_pipeline st account keyD addrD value backend = .error .amountOutOfRange ∨
      create_pipeline st account keyD addrD value backend = .error .amountNegative := by
    unfold create_pipeline amountFromI64
    rw [if_neg (show ¬(account < 0) by omega)]
    by_cases hr : -maxMoney ≤ value ∧ value ≤ maxMoney
    · right
      rw [if_pos hr]
      have hv : value < 0 := by
        rcases hbad with hlt | hgt
        · exact hlt
        · omega
      dsimp only
      rw [if_pos hv]
    · left
      rw [if_neg hr]
  refine ⟨hpipe, ?_⟩
  unfold zcashlc_create_to_address
  rcases hpipe with hp | hp <;> rw [hp]

theorem claim3_witness :
    (create_pipeline st3 0 (.ok (some key3)) (some 0) (-5) backend3 =
       .error .amountOutOfRange ∨
     create_pipeline st3 0 (.ok (some key3)) (some 0) (-5) backend3 =
       .error .amountNegative) ∧
    zcashlc_create_to_address st3 0 (.ok (some key3)) (some 0) (-5) backend3 = (st3, -1) :=
  claim3_amount_validation st3 0 (.ok (some key3)) (some 0) (-5) backend3
    (by decide) (by decide)

/-- Claim C6: a spending key that does not decode for the expected
network (`Ok None`), an invalid spending key encoding (`Err`), and a
recipient address that does not parse for the expected network (`None`)
are each rejected with a tagged error before note selection — the
backend is never invoked and the store is returned unchanged with the
error sentinel. -/
theorem claim6_key_addr_validation (st : WalletStore) (account : Int)
    (keyD : Except Unit (Option ExtSpendingKey)) (addrD : Option Nat) (value : Int)
    (backend : WalletStore → Except Unit (WalletStore × Int))
    (ha : 0 ≤ account) (hv0 : 0 ≤ value) (hv1 : value ≤ maxMoney) :
    (keyD = .ok none →
      create_pipeline st account keyD addrD value backend = .error .keyWrongNetwork ∧
      zcashlc_create_to_address st account keyD addrD value backend = (st, -1)) ∧
    (keyD = .error () →
      create_pipeline st account keyD addrD value backend = .error .keyInvalid ∧
      zcashlc_create_to_address st account keyD addrD value backend = (st, -1)) ∧
    (∀ k, keyD = .ok (some k) → addrD = none →
      create_pipeline st account keyD addrD value backend = .error .addrWrongNetwork ∧
      zcashlc_create_to_address st account keyD addrD value backend = (st, -1)) := by
  have hstep : create_pipeline st account keyD addrD value backend =
      (match keyD with
       | .error _ => .error .keyInvalid
       | .ok none => .error .keyWrongNetwork
       | .ok (some _) =>
         match addrD with
         | none => .error .addrWrongNetwork
         | some _ =>
           match backend st with
           | .error _ => .error .backendFailed
           | .ok r => .ok r) := by
    unfold create_pipeline amountFromI64
    rw [if_neg (show ¬(account < 0) by omega),
        if_pos (show -maxMoney ≤ value ∧ value ≤ maxMoney from ⟨by omega, hv1⟩)]
    dsimp only
    rw [if_neg (show ¬(value < 0) by omega)]
  refine ⟨?_, ?_, ?_⟩
  · intro hk
    have hp : create_pipeline st account keyD addrD value backend = .error .keyWrongNetwork := by
      rw [hstep, hk]
    exact ⟨hp, by unfold zcashlc_create_to_address; rw [hp]⟩
  · intro hk
    have hp : create_pipeline st account keyD addrD value backend = .error .keyInvalid := by
      rw [hstep, hk]
    exact ⟨hp, by unfold zcashlc_create_to_address; rw [hp]⟩
  · intro k hk hd
    have hp : create_pipeline st account keyD addrD value backend = .error .addrWrongNetwork := by
      rw [hstep, hk, hd]
    exact ⟨hp, by unfold zcashlc_create_to_address; rw [hp]⟩

theorem claim6_witness :
    create_pipeline st3 0 (.ok none) (some 0) 1 backend3 = .error .keyWrongNetwork ∧
    zcashlc_create_to_address st3 0 (.ok none) (some 0) 1 backend3 = (st3, -1) :=
  (claim6_key_addr_validation st3 0 (.ok none) (some 0) 1 backend3
    (by decide) (by decide) (by decide)).1 rfl

/-! ## Claim C7: account initialisation tolerates an existing table -/

/-- Claim C7: when accounts already exist in the store (the backend
fails with `TableNotEmpty`), `zcashlc_init_accounts_table` treats the
call as a no-op success — the store is unchanged and the ordered list of
spending keys derived from the seed for account indices `0..accounts` is
still returned (not the error sentinel). -/
theorem claim7_init_accounts_tolerant (st : WalletStore) (seed : List Nat) (accounts : Int)
    (hne : st.accounts ≠ []) (hnn : 0 ≤ accounts) :
    zcashlc_init_accounts_table st seed accounts =
      (st, some ((List.range accounts.toNat).map (fun a => spending_key seed 1 a))) := by
  unfold zcashlc_init_accounts_table
  rw [if_neg (show ¬(accounts < 0) by omega)]
  dsimp only
  unfold init_accounts_table
  rw [if_pos hne]

/-- Store with one pre-existing account, for the claim C7 witness. -/
def st7w : WalletStore :=
  { accounts := [{ seed := [9], coinType := 1, account := 0 }],
    blocks := [], notes := [], sentNotes := [], nullifiers := [], frontier := [] }

theorem claim7_witness :
    zcashlc_init_accounts_table st7w [3, 4] 2 =
      (st7w, some ((List.range (2 : Int).toNat).map (fun a => spending_key [3, 4] 1 a))) :=
  claim7_init_accounts_tolerant st7w [3, 4] 2 (by decide) (by decide)

/-! ## Claim C8: invalid-UTF-8 memos are dropped, not fatal -/

/-- Viewing key tracked by the claim C8 store. -/
def k8 : ExtFullViewingKey := { seed := [1], coinType := 1, account := 0 }

/-- Scanned tip of the claim C8 store. -/
def sb8 : ScannedBlock := { height := 280000, hash := 5, prevHash := 4, time := 0, frontier := [] }

/-- Claim C8 wallet store: one tracked account, scanned up to the
Sapling activation height, no notes yet. -/
def st8 : WalletStore :=
  { accounts := [k8], blocks := [sb8], notes := [], sentNotes := [], nullifiers := [],
    frontier := [] }

/-- The next cached block, containing a single transaction with the
single output `o`. -/
def blk8 (o : CompactOutput) : CompactBlock :=
  { height := 280001, hash := 9, prevHash := 5, time := 0,
    txs := [{ spends := [], outputs := [o] }] }

/-- The wallet store after scanning `blk8 o` when the output decrypts to
a note of value `v` whose memo bytes are invalid UTF-8: the note is
recorded with an absent memo. -/
def scanned8 (o : CompactOutput) (v : Int) : WalletStore :=
  { accounts := [k8],
    blocks := [sb8, { height := 280001, hash := 9, prevHash := 5, time := 0,
                      frontier := [o.cmu] }],
    notes := [{ account := 0, value := v, height := 280001, position := 0, spent := false,
                memo := none }],
    sentNotes := [], nullifiers := [], frontier := [o.cmu] }

/-- Claim C8: for every scanned output whose memo bytes are not valid
UTF-8 (for every trial decryption yielding such bytes), the scan
succeeds, the note is stored with an absent memo, and querying that
note's memo through `zcashlc_get_received_memo_as_utf8` returns the
empty string rather than an error. -/
theorem claim8_invalid_memo_dropped
    (decrypt : ExtFullViewingKey → CompactOutput → Option DecryptedNote)
    (nullifierOf : Nat → Nat → Nat) (o : CompactOutput) (v : Int) (m : List Nat)
    (hd : decrypt k8 o = some { value := v, memoBytes := m })
    (hm : isValidUtf8 m = false) :
    scan_cached_blocks decrypt nullifierOf [blk8 o] st8 = .ok (scanned8 o v) ∧
    (scanned8 o v).notes.map (fun n => n.memo) = [none] ∧
    zcashlc_get_received_memo_as_utf8 (scanned8 o v) 0 = some [] := by
  refine ⟨?_, rfl, rfl⟩
  have hblock : scanBlock decrypt nullifierOf st8 (blk8 o) = scanned8 o v := by
    unfold scanBlock scanTx processOutput
    simp [st8, blk8, sb8, scanned8, hd, hm]
  show scanGo decrypt nullifierOf
      (sortByHeight (List.filter (fun b => decide (maxScannedHeight st8 < b.height)) [blk8 o]))
      (maxScannedHeight st8 + 1) st8 = .ok (scanned8 o v)
  have hms : maxScannedHeight st8 = 280000 := rfl
  rw [hms]
  have hf : List.filter (fun b => decide ((280000 : Int) < b.height)) [blk8 o] = [blk8 o] := by
    simp [blk8]
  rw [hf]
  have hs : sortByHeight [blk8 o] = [blk8 o] := rfl
  rw [hs]
  simp only [scanGo]
  rw [if_pos (show (blk8 o).height = 280000 + 1 by norm_num [blk8]), hblock]

/-- Concrete compact output for the claim C8 witness. -/
def o8w : CompactOutput := { cmu := 3, epk := 4, ciphertext := [] }

/-- Trial decryption for the claim C8 witness: yields a note of value 5
whose memo bytes `[255]` are invalid UTF-8. -/
def decrypt8w : ExtFullViewingKey → CompactOutput → Option DecryptedNote :=
  fun _ _ => some { value := 5, memoBytes := [255] }

theorem claim8_witness :
    scan_cached_blocks decrypt8w nullifierOf0 [blk8 o8w] st8 = .ok (scanned8 o8w 5) ∧
    (scanned8 o8w 5).notes.map (fun n => n.memo) = [none] ∧
    zcashlc_get_received_memo_as_utf8 (scanned8 o8w 5) 0 = some [] :=
  claim8_invalid_memo_dropped decrypt8w nullifierOf0 o8w 5 [255] rfl (by decide)

/-! ## Claim C10: FFI totality and sentinel conventions -/

/-- Claim C10 counterexample: not every exported `zcashlc_*` function
wraps its body in `catch_panic` — the three last-error helpers and the
two free functions do not. -/
theorem claim10_counterexample :
    (ffiFunctions.all (fun f => f.catchesPanic)) = false ∧
    ((ffiFunctions.filter (fun f => !f.catchesPanic)).map (fun f => f.name)) =
      ["zcashlc_last_error_length", "zcashlc_error_message_utf8", "zcashlc_clear_last_error",
       "zcashlc_string_free", "zcashlc_vec_string_free"] := by
  exact ⟨rfl, rfl⟩

/-- Claim C10 (amended): every exported `zcashlc_*` function except the
last-error helpers and the free functions wraps its body in
`catch_panic` and, on a caught panic or error, returns the designated
sentinel of its return kind (null pointer for pointers, 0 for i32, -1
for the i64 balance/transaction-id functions); the unwrap helpers
translated from the source return exactly those sentinels on error. -/
theorem claim10_ffi_totality :
    (∀ f ∈ ffiFunctions, f.name ∉ ffiUnwrapped →
      f.catchesPanic = true ∧ f.onError = defaultSentinel f.ret) ∧
    (∀ d : Int, unwrap_exc_or (.error ()) d = d) ∧
    unwrap_exc_or_null (Except.error () : Except Unit (Option Nat)) = none ∧
    unwrap_exc_or_null (Except.error () : Except Unit Int) = 0 := by
  refine ⟨by decide, fun d => rfl, rfl, rfl⟩

/-- Descriptor of `zcashlc_get_balance`, used by the claim C10
witness. -/
def ffiGetBalance : FfiFn :=
  { name := "zcashlc_get_balance", ret := .int64, catchesPanic := true,
    onError := some (.intVal (-1)) }

theorem claim10_witness :
    ffiGetBalance.catchesPanic = true ∧
    ffiGetBalance.onError = defaultSentinel ffiGetBalance.ret :=
  claim10_ffi_totality.1 ffiGetBalance (by decide) (by decide)

end ZcashLC
